import Mathlib

/-!
Verification development for the Student-Management-System query tool
(`lookup.py`). The data-export and query-result shaping logic is embedded
shallowly: Python strings are `List Char`, dictionaries are ordered
association lists, SQLite tables are lists of typed rows, and fallible
Python code (code that can raise) returns `Except PyErr`.
-/

namespace SQT

/-- A modeled Python string: an ordered list of characters. -/
abbrev Str := List Char

/-- A scalar value held in a result record: the tool only ever puts SQLite
strings and integers into its dictionaries. -/
inductive Value where
  | str (s : Str)
  | int (n : Int)
deriving DecidableEq

/-- A Record: an ordered mapping from field name to scalar value, modeling
one Python `dict` built from a database row (Python dicts preserve
insertion order). -/
abbrev Record := List (Str × Value)

/-- A dynamically-typed Python object, as far as the export helpers can
observe one: a dict of scalars, a list of objects, a plain string, or an
integer. -/
inductive PyObj where
  | dict (r : Record)
  | list (xs : List PyObj)
  | str (s : Str)
  | int (n : Int)

/-- A Python exception class raised by the modeled code.
`valueError` is the explicit `raise ValueError(...)` in
`store_data_as_xml`; `attributeError` models the runtime error from
calling `.items()` on a non-dict (`'X' object has no attribute 'items'`);
`typeError` models subscripting `None`
(`'NoneType' object is not subscriptable`). -/
inductive PyErr where
  | valueError
  | attributeError
  | typeError
deriving DecidableEq

/-- A Result Set: either a single Record or an ordered sequence of
Records. Every call site of `offer_to_store` passes one of these two
shapes. -/
inductive ResultSet where
  | one (r : Record)
  | many (rs : List Record)

/-- View a Result Set as the Python object actually passed around. -/
def ResultSet.toPy : ResultSet → PyObj
  | .one r => .dict r
  | .many rs => .list (rs.map .dict)

/-! ## Decimal printing (Python `str` on an int, and the JSON int form) -/

/-- The character for a decimal digit `d < 10`. -/
def digitChar (d : Nat) : Char := Char.ofNat (48 + d)

/-- Fuel-driven decimal printer: prepends the decimal digits of `n` to
`acc`. Any `fuel > n` is enough fuel. -/
def natDecAux : Nat → Nat → Str → Str
  | 0, _, acc => acc
  | fuel + 1, n, acc =>
    if n < 10 then digitChar n :: acc
    else natDecAux fuel (n / 10) (digitChar (n % 10) :: acc)

/-- Decimal digits of a natural number. -/
def natDec (n : Nat) : Str := natDecAux (n + 1) n []

/-- Decimal form of an integer, as produced by Python `str(value)` and by
`json.dumps` for an int. -/
def intDec : Int → Str
  | .ofNat n => natDec n
  | .negSucc m => '-' :: natDec (m + 1)

/-- Python `str(value)` for the scalar values the tool stores. -/
def Value.toChars : Value → Str
  | .str s => s
  | .int n => intDec n

/-! ## The XML tree built by `store_data_as_xml` -/

/-- An element tree as built with `xml.etree.ElementTree`: a tag, optional
text content, and child elements. The tool never sets attributes. -/
inductive Xml where
  | elem (tag : Str) (text : Option Str) (children : List Xml)

/-- One leaf element `<key>str(value)</key>`, as built by
`ET.SubElement(parent, key); child.text = str(value)`. -/
def xmlLeaf (kv : Str × Value) : Xml := .elem kv.1 (some kv.2.toChars) []

/-- One `<item>` element holding a leaf per field of a record, in field
order (the inner loop of the list branch of `store_data_as_xml`). -/
def xmlItem (r : Record) : Xml := .elem ("item".toList) none (r.map xmlLeaf)

/-- The `for item in data` loop of `store_data_as_xml`: each list element
must be a dict (`item.items()`); a non-dict element raises
`AttributeError` at runtime, because the loop calls `.items()` without
any type check on the element. -/
def xmlItems? : List PyObj → Except PyErr (List Xml)
  | [] => .ok []
  | PyObj.dict r :: rest => (xmlItems? rest).map (fun xs => xmlItem r :: xs)
  | _ :: _ => .error PyErr.attributeError

/-- The tree-building part of `store_data_as_xml` (lines 74-88 of
`lookup.py`): root tag `data`; a list input gets one `item` child per
element; a dict input gets its leaf tags directly under the root; any
other input raises
`ValueError("Data must be a dictionary or a list of dictionaries to store as XML.")`. -/
def store_data_as_xml_tree : PyObj → Except PyErr Xml
  | .list xs => (xmlItems? xs).map (fun cs => Xml.elem ("data".toList) none cs)
  | .dict r => .ok (Xml.elem ("data".toList) none (r.map xmlLeaf))
  | _ => .error PyErr.valueError

/-! ## The database and the Query Layer -/

/-- A row of the `Student` table. -/
structure StudentRow where
  student_id : Str
  first_name : Str
  last_name : Str
  email : Str
  address_id : Str
deriving DecidableEq

/-- A row of the `Course` table. -/
structure CourseRow where
  course_code : Str
  course_name : Str
  teacher_id : Str
deriving DecidableEq

/-- A row of the `StudentCourse` enrollment table. -/
structure SCRow where
  student_id : Str
  course_code : Str
  is_complete : Int
  mark : Int
deriving DecidableEq

/-- The persistent store: the three tables the formalized lookups touch. -/
structure DB where
  student : List StudentRow
  course : List CourseRow
  studentCourse : List SCRow

/-- `get_student_info`: `SELECT first_name, last_name, email FROM Student
WHERE student_id=?` followed by `fetchone()`; a miss yields `None`
(modeled as `none`), which the callers test with `if student_info:`. -/
def get_student_info (db : DB) (sid : Str) : Option (Str × Str × Str) :=
  ((db.student.filter (fun r => r.student_id == sid)).head?).map
    (fun r => (r.first_name, r.last_name, r.email))

/-- `get_course_name`: `SELECT course_name FROM Course WHERE
course_code=?` followed by `return cur.fetchone()[0]`. When no row
matches, `fetchone()` returns `None` and the subscript `[0]` raises
`TypeError` — the error is modeled, not swallowed. -/
def get_course_name (db : DB) (code : Str) : Except PyErr Str :=
  match (db.course.filter (fun r => r.course_code == code)).head? with
  | some r => .ok r.course_name
  | none => .error PyErr.typeError

/-- First query of `view_subjects_by_student`: `SELECT course_code FROM
StudentCourse WHERE student_id=?`, `fetchall()`, then the comprehension
`[course[0] for course in courses]`. -/
def subjectCodes (db : DB) (sid : Str) : List Str :=
  (db.studentCourse.filter (fun r => r.student_id == sid)).map (fun r => r.course_code)

/-- The Result Set produced by one pass of `view_subjects_by_student`
(lines 231-253): if the student has no enrollment rows the function only
prints "Incorrect student ID" (empty Result Set, nothing raised);
otherwise a second query `SELECT course_name FROM Course WHERE
course_code IN (...)` resolves the codes, and each returned name becomes
the record `{"course_name": name}`. -/
def view_subjects_by_student (db : DB) (sid : Str) : List Record :=
  let codes := subjectCodes db sid
  if codes = [] then []
  else
    (db.course.filter (fun c => codes.contains c.course_code)).map
      (fun c => [(("course_name").toList, Value.str c.course_name)])

/-- First query of `list_students_not_completed`: `SELECT student_id,
course_code FROM StudentCourse WHERE is_complete = 0`. -/
def not_completed_rows (db : DB) : List SCRow :=
  db.studentCourse.filter (fun r => r.is_complete == 0)

/-- First query of `list_students_with_low_marks`: `SELECT student_id,
course_code, mark FROM StudentCourse WHERE mark <= 30`. -/
def low_marks_query (db : DB) : List SCRow :=
  db.studentCourse.filter (fun r => decide (r.mark ≤ 30))

/-- The dict appended for one row by `list_students_not_completed`
(lines 417-424), in the field order of the source. -/
def incompleteRecord (r : SCRow) (info : Str × Str × Str) (cname : Str) : Record :=
  [ (("student_id").toList, Value.str r.student_id)
  , (("course_code").toList, Value.str r.course_code)
  , (("first_name").toList, Value.str info.1)
  , (("last_name").toList, Value.str info.2.1)
  , (("email").toList, Value.str info.2.2)
  , (("course_name").toList, Value.str cname) ]

/-- The dict appended for one row by `list_students_with_low_marks`
(lines 457-465), in the field order of the source. -/
def lowRecord (r : SCRow) (info : Str × Str × Str) (cname : Str) : Record :=
  [ (("student_id").toList, Value.str r.student_id)
  , (("course_code").toList, Value.str r.course_code)
  , (("first_name").toList, Value.str info.1)
  , (("last_name").toList, Value.str info.2.1)
  , (("email").toList, Value.str info.2.2)
  , (("course_name").toList, Value.str cname)
  , (("mark").toList, Value.int r.mark) ]

/-- The row loop of `list_students_not_completed` (lines 409-424): for
each selected row it calls `get_student_info`, then unconditionally calls
`get_course_name` (whose `TypeError` on a dangling course code
propagates), and only appends (and prints) a record when the student
lookup succeeded — a missing student is skipped without any error. -/
def buildIncomplete (db : DB) : List SCRow → Except PyErr (List Record)
  | [] => .ok []
  | r :: rest =>
    match get_course_name db r.course_code with
    | .error e => .error e
    | .ok cname =>
      match buildIncomplete db rest with
      | .error e => .error e
      | .ok recs =>
        match get_student_info db r.student_id with
        | some info => .ok (incompleteRecord r info cname :: recs)
        | none => .ok recs

/-- The row loop of `list_students_with_low_marks` (lines 449-465), with
the same skip-on-missing-student / raise-on-missing-course behavior. -/
def buildLow (db : DB) : List SCRow → Except PyErr (List Record)
  | [] => .ok []
  | r :: rest =>
    match get_course_name db r.course_code with
    | .error e => .error e
    | .ok cname =>
      match buildLow db rest with
      | .error e => .error e
      | .ok recs =>
        match get_student_info db r.student_id with
        | some info => .ok (lowRecord r info cname :: recs)
        | none => .ok recs

/-- The Result Set built by `list_students_not_completed`. -/
def list_students_not_completed (db : DB) : Except PyErr (List Record) :=
  buildIncomplete db (not_completed_rows db)

/-- The Result Set built by `list_students_with_low_marks`. -/
def list_students_with_low_marks (db : DB) : Except PyErr (List Record) :=
  buildLow db (low_marks_query db)

/-! ## The file system and the pretty-printed outputs -/

/-- The visible file system: filename to contents. `open(filename, 'w')`
truncates, so a write replaces any previous entry for that name. -/
abbrev FS := List (Str × Str)

/-- Writing a whole file with `open(filename, 'w')` + `write`. -/
def fwrite (fs : FS) (fn content : Str) : FS :=
  (fn, content) :: fs.eraseP (fun e => e.1 == fn)

/-- Reading back the contents of a file. -/
def fsRead (fs : FS) (fn : Str) : Option Str :=
  (fs.find? (fun e => e.1 == fn)).map (fun e => e.2)

/-- Indentation: `n` spaces. -/
def pad : Nat → Str
  | 0 => []
  | n + 1 => ' ' :: pad n

/-- Text escaping applied when element text is written out
(`&`, `<`, `>` become entities). -/
def xmlEscape (s : Str) : Str :=
  s.foldr
    (fun c acc =>
      (if c = '&' then ("&amp;").toList
       else if c = '<' then ("&lt;").toList
       else if c = '>' then ("&gt;").toList
       else [c]) ++ acc)
    []

mutual

/-- Pretty-printing of one element at an indent level, modeling
`minidom.parseString(ET.tostring(root)).toprettyxml(indent="  ")` on the
trees this tool builds: a childless element with nonempty text is written
inline, a childless element with no (or empty) text self-closes, and an
element with children puts each child on its own line two spaces deeper. -/
def xmlPrettyNode (ind : Nat) : Xml → Str
  | Xml.elem tag txt [] =>
    match txt with
    | some t =>
      if t = [] then pad ind ++ '<' :: tag ++ '/' :: '>' :: ['\n']
      else pad ind ++ '<' :: tag ++ '>' :: xmlEscape t ++ '<' :: '/' :: tag ++ '>' :: ['\n']
    | none => pad ind ++ '<' :: tag ++ '/' :: '>' :: ['\n']
  | Xml.elem tag _ (c :: cs) =>
    pad ind ++ '<' :: tag ++ '>' :: '\n' :: xmlPrettyList (ind + 2) (c :: cs)
      ++ pad ind ++ '<' :: '/' :: tag ++ '>' :: ['\n']

/-- Pretty-printing of a child list, one child per line. -/
def xmlPrettyList (ind : Nat) : List Xml → Str
  | [] => []
  | x :: xs => xmlPrettyNode ind x ++ xmlPrettyList ind xs

end

/-- The full document text written by `store_data_as_xml`: the
`minidom` XML declaration line followed by the pretty-printed tree. -/
def xml_pretty (t : Xml) : Str :=
  ("<?xml version=\"1.0\" ?>\n").toList ++ xmlPrettyNode 0 t

/-- `store_data_as_xml(data, filename)`: build the tree (raising on bad
shapes), pretty-print it, and overwrite `filename` with the text. -/
def store_data_as_xml (data : PyObj) (fn : Str) (fs : FS) : Except PyErr FS :=
  (store_data_as_xml_tree data).map (fun t => fwrite fs fn (xml_pretty t))

/-! ## The JSON text produced by `json.dumps(data, indent=4)` -/

/-- The escaping `json.dumps` applies inside a string literal, modeled on
the printable-ASCII data this tool serializes: quote, backslash, newline,
tab and carriage return take their two-character escapes; other
characters pass through. (CPython additionally `\uXXXX`-escapes other
control and non-ASCII characters, which never occur in the verified
domain.) -/
def escChar (c : Char) : Str :=
  if c = '\"' then ['\\', '\"']
  else if c = '\\' then ['\\', '\\']
  else if c = '\n' then ['\\', 'n']
  else if c = '\t' then ['\\', 't']
  else if c = '\r' then ['\\', 'r']
  else [c]

/-- Escape a whole string body. -/
def escStr (s : Str) : Str := s.foldr (fun c acc => escChar c ++ acc) []

/-- The JSON form of one scalar value: a quoted escaped string or a bare
decimal integer. -/
def valChars : Value → Str
  | .str s => '\"' :: escStr s ++ ['\"']
  | .int n => intDec n

/-- One `"key": value` line of an indented JSON object. -/
def fieldChars (ind : Nat) (kv : Str × Value) : Str :=
  pad ind ++ '\"' :: escStr kv.1 ++ '\"' :: ':' :: ' ' :: valChars kv.2

/-- The member lines of an indented JSON object, separated by `,\n`
(the `indent=4` item separator). -/
def fieldsChars (ind : Nat) : Record → Str
  | [] => []
  | [kv] => fieldChars ind kv
  | kv :: rest => fieldChars ind kv ++ ',' :: '\n' :: fieldsChars ind rest

/-- `json.dumps(record, indent=4)` at nesting indent `ind`: `{}` for an
empty dict, otherwise the brace-delimited member lines indented
`ind + 4`. -/
def dumpRecord (ind : Nat) : Record → Str
  | [] => ['\x7b', '\x7d']
  | kv :: rest =>
    '\x7b' :: '\n' :: fieldsChars (ind + 4) (kv :: rest) ++ '\n' :: pad ind ++ ['\x7d']

/-- The element lines of a top-level JSON array of records. -/
def dumpElems : List Record → Str
  | [] => []
  | [r] => pad 4 ++ dumpRecord 4 r
  | r :: rs => pad 4 ++ dumpRecord 4 r ++ ',' :: '\n' :: dumpElems rs

/-- `json.dumps(list_of_records, indent=4)`: `[]` for an empty list,
otherwise one indented record per element. -/
def dumpRecordList : List Record → Str
  | [] => ['[', ']']
  | r :: rs => '[' :: '\n' :: dumpElems (r :: rs) ++ '\n' :: [']']

/-- The text `store_data_as_json` writes for each Result Set shape the
program passes it. -/
def json_serialize : ResultSet → Str
  | .one r => dumpRecord 0 r
  | .many rs => dumpRecordList rs

/-- `store_data_as_json(data, filename)`: serialize with
`json.dumps(data, indent=4)` and overwrite `filename` (UTF-8 text mode). -/
def store_data_as_json (data : ResultSet) (fn : Str) (fs : FS) : FS :=
  fwrite fs fn (json_serialize data)

/-! ## The filename prompt of `offer_to_store` -/

/-- Whitespace removed by Python `str.strip()`. -/
def pyWs (c : Char) : Bool :=
  c == ' ' || c == '\t' || c == '\n' || c == '\r' || c == '\x0b' || c == '\x0c'

/-- Python `str.strip()`. -/
def pyStrip (s : Str) : Str :=
  ((s.dropWhile pyWs).reverse.dropWhile pyWs).reverse

/-- Python `str.split(sep)` for a one-character separator: always returns
at least one piece, and empty pieces mark leading, trailing or doubled
separators. -/
def pySplit (sep : Char) : Str → List Str
  | [] => [[]]
  | c :: rest =>
    if c = sep then [] :: pySplit sep rest
    else
      match pySplit sep rest with
      | p :: ps => (c :: p) :: ps
      | [] => [[c]]

/-- Python negative indexing `parts[-1]` on a nonempty list (the default
is never reached: `pySplit` never returns `[]`). -/
def lastD (d : Str) : List Str → Str
  | [] => d
  | [x] => x
  | _ :: x :: xs => lastD d (x :: xs)

/-- The format the filename routes to. -/
inductive FileFormat where
  | xml
  | json
deriving DecidableEq

/-- What one pass of the filename prompt decides. -/
inductive FilenameOutcome where
  | write (fmt : FileFormat)
  | invalidName
  | invalidExt
deriving DecidableEq

/-- The filename validation and dispatch of `offer_to_store`
(lines 117-133): an empty name, a name without a dot, or a name whose
part before the first dot is empty is reported as an invalid filename;
otherwise the part after the last dot, lowercased, selects `xml` or
`json`, and anything else is reported as an invalid extension. Both
failures re-prompt without writing. -/
def filename_dispatch (fn : Str) : FilenameOutcome :=
  if fn = [] ∨ ¬ '.' ∈ fn ∨ (pySplit '.' fn).headD [] = [] then .invalidName
  else if (lastD [] (pySplit '.' fn)).map Char.toLower = ("xml").toList then .write .xml
  else if (lastD [] (pySplit '.' fn)).map Char.toLower = ("json").toList then .write .json
  else .invalidExt

/-- The XML tree of a Result Set. On these shapes `store_data_as_xml`
never raises; `store_data_as_xml_tree_toPy` below certifies agreement. -/
def xmlOfResultSet : ResultSet → Xml
  | .one r => Xml.elem ("data".toList) none (r.map xmlLeaf)
  | .many rs => Xml.elem ("data".toList) none (rs.map xmlItem)

/-- The outcome of one pass of the inner filename loop. -/
inductive StoreStep where
  | saved (fs : FS)
  | reprompt (fs : FS)
deriving DecidableEq

/-- One pass of the filename loop of `offer_to_store` on the Result Sets
the program passes it: strip the typed name, dispatch on its extension,
and either write the file in the selected format or re-prompt leaving
the file system untouched. -/
def offer_to_store_step (data : ResultSet) (fnRaw : Str) (fs : FS) : StoreStep :=
  let fn := pyStrip fnRaw
  match filename_dispatch fn with
  | .write .xml => .saved (fwrite fs fn (xml_pretty (xmlOfResultSet data)))
  | .write .json => .saved (store_data_as_json data fn fs)
  | _ => .reprompt fs

/-! ## Reading the exported JSON back (`json.loads` on a flat object) -/

/-- Whitespace `json.loads` skips between tokens. -/
def isWsChar (c : Char) : Bool :=
  c == ' ' || c == '\n' || c == '\t' || c == '\r'

/-- Skip inter-token whitespace. -/
def skipWs : Str → Str
  | [] => []
  | c :: cs => if isWsChar c then skipWs cs else c :: cs

/-- The character named by a two-character escape inside a JSON string
literal (the escapes `escChar` emits). -/
def unescChar (e : Char) : Option Char :=
  if e = '\"' then some '\"'
  else if e = '\\' then some '\\'
  else if e = 'n' then some '\n'
  else if e = 't' then some '\t'
  else if e = 'r' then some '\r'
  else none

/-- Read a JSON string body after its opening quote, unescaping as it
goes; `acc` holds the characters read so far, reversed. -/
def parseStrAux : Str → Str → Option (Str × Str)
  | _, [] => none
  | acc, c :: rest =>
    if c = '\"' then some (acc.reverse, rest)
    else if c = '\\' then
      match rest with
      | [] => none
      | e :: rest2 =>
        match unescChar e with
        | some d => parseStrAux (d :: acc) rest2
        | none => none
    else parseStrAux (c :: acc) rest

/-- Consume a maximal run of decimal digits, accumulating their value. -/
def parseDigitsAux : Nat → Str → Nat × Str
  | a, [] => (a, [])
  | a, c :: cs =>
    if c.isDigit then parseDigitsAux (a * 10 + (c.toNat - 48)) cs else (a, c :: cs)

/-- Read a JSON integer (optional minus sign, then digits). -/
def parseIntVal : Str → Option (Int × Str)
  | [] => none
  | c :: cs =>
    if c = '-' then
      match cs with
      | [] => none
      | d :: ds =>
        if d.isDigit then
          let p := parseDigitsAux 0 (d :: ds)
          some (-(p.1 : Int), p.2)
        else none
    else if c.isDigit then
      let p := parseDigitsAux 0 (c :: cs)
      some ((p.1 : Int), p.2)
    else none

/-- Read one scalar JSON value (string or integer — the only value forms
this tool ever writes into a record). -/
def parseValue (cs : Str) : Option (Value × Str) :=
  match skipWs cs with
  | [] => none
  | c :: rest =>
    if c = '\"' then (parseStrAux [] rest).map (fun p => (Value.str p.1, p.2))
    else (parseIntVal (c :: rest)).map (fun p => (Value.int p.1, p.2))

/-- Read the members of a JSON object after its opening brace, in
document order, up to and including the closing brace. The fuel bounds
the number of members; each member consumes at least one character. -/
def parseFieldsAux : Nat → Str → Option (Record × Str)
  | 0, _ => none
  | fuel + 1, cs =>
    match skipWs cs with
    | [] => none
    | c :: r0 =>
      if c = '\"' then
        match parseStrAux [] r0 with
        | none => none
        | some (k, r1) =>
          match skipWs r1 with
          | [] => none
          | c1 :: r2 =>
            if c1 = ':' then
              match parseValue r2 with
              | none => none
              | some (v, r3) =>
                match skipWs r3 with
                | [] => none
                | c3 :: r4 =>
                  if c3 = ',' then
                    match parseFieldsAux fuel r4 with
                    | some (flds, r5) => some ((k, v) :: flds, r5)
                    | none => none
                  else if c3 = '\x7d' then some ([(k, v)], r4)
                  else none
            else none
      else none

/-- `json.loads` on the flat-object documents `json.dumps` writes for a
single Record: parse one object, in document order, and demand nothing
but whitespace after it. Keys stay strings; numeric literals become
integers; nothing is retyped afterwards. -/
def json_loads (cs : Str) : Option Record :=
  match skipWs cs with
  | [] => none
  | c :: rest =>
    if c = '\x7b' then
      match skipWs rest with
      | [] => none
      | c2 :: r2 =>
        if c2 = '\x7d' then (if skipWs r2 = [] then some [] else none)
        else
          match parseFieldsAux (rest.length + 1) rest with
          | some (r, rem) => if skipWs rem = [] then some r else none
          | none => none
    else none

/-- Heads that stop the digit reader: a string whose first character, if
any, is not a decimal digit. -/
def noDigitHead : Str → Prop
  | [] => True
  | c :: _ => c.isDigit = false

/-- Printable-ASCII text: the domain on which the modeled `json.dumps`
escaping agrees with CPython (which additionally escapes control and
non-ASCII characters). -/
def printableStr (s : Str) : Bool :=
  s.all (fun c => 32 ≤ c.toNat && c.toNat ≤ 126)

/-- Printability of a scalar value. -/
def printableVal : Value → Bool
  | .str s => printableStr s
  | .int _ => true

/-- A Record as a Python dict can actually hold it: distinct field names,
and printable-ASCII text (the domain on which the serializer model is
faithful to CPython). -/
@[reducible] def validRecord (r : Record) : Prop :=
  (r.map Prod.fst).Nodup ∧ r.all (fun kv => printableStr kv.1 && printableVal kv.2) = true

/-! ## Concrete stores used as evidence -/

/-- The Record with one numeric field, `\x7b"mark": 30\x7d`. -/
def rMark : Record := [(("mark").toList, Value.int 30)]

/-- The address Record of the end-to-end scenario. -/
def rAddr : Record :=
  [(("street").toList, Value.str (("12 Oak Ave").toList)),
   (("city").toList, Value.str (("Springfield").toList))]

/-- A store with empty tables. -/
def dbEmpty : DB := ⟨[], [], []⟩

/-- An enrollment row with a mark of exactly 30. -/
def row30 : SCRow := ⟨("S1").toList, ("C1").toList, 1, 30⟩

/-- A store whose only enrollment row has mark 30. -/
def db30 : DB := ⟨[], [], [row30]⟩

/-- An enrollment row with a mark of 31. -/
def row31 : SCRow := ⟨("S1").toList, ("C1").toList, 1, 31⟩

/-- A store whose only enrollment row has mark 31. -/
def db31 : DB := ⟨[], [], [row31]⟩

/-- The two-step scenario store: student `S1` is enrolled in codes `C1`
and `C2`, but `Course` names only `C1`. -/
def db8 : DB :=
  ⟨[], [⟨("C1").toList, ("Intro").toList, ("T1").toList⟩],
   [⟨("S1").toList, ("C1").toList, 0, 0⟩, ⟨("S1").toList, ("C2").toList, 0, 0⟩]⟩

/-- The store with one student's enrollment in one course code removed
(every `StudentCourse` row matching both keys is dropped; the other
tables are untouched). -/
def dropEnrollment (db : DB) (sid code : Str) : DB :=
  { db with studentCourse := (db.studentCourse.filter
      (fun r => decide (¬ (r.student_id = sid ∧ r.course_code = code)))) }

/-- The course name `get_course_name` returns when the course row
exists (the default is never reached under that hypothesis). -/
def courseNameD (db : DB) (code : Str) : Str :=
  (((db.course.filter (fun r => r.course_code == code)).head?).map
    (fun r => r.course_name)).getD []

/-- A store with one incomplete low-mark enrollment row whose student
and course are both missing. -/
def dbDangling : DB := ⟨[], [], [⟨("S1").toList, ("CX").toList, 0, 10⟩]⟩

/-- A student row present in `dbW`. -/
def stuW : StudentRow :=
  ⟨("S2").toList, ("Ann").toList, ("Lee").toList, ("ann@x.io").toList, ("A1").toList⟩

/-- A store with two incomplete low-mark enrollment rows over an existing
course; only the second row's student exists. -/
def dbW : DB :=
  ⟨[stuW], [⟨("CX").toList, ("Intro").toList, ("T1").toList⟩],
   [⟨("S1").toList, ("CX").toList, 0, 10⟩, ⟨("S2").toList, ("CX").toList, 0, 10⟩]⟩

/-! ## Shared serializer lemmas -/

/-- The item loop succeeds on a list of dicts and yields one `item`
element per record, in order. -/
theorem xmlItems?_dicts (rs : List Record) :
    xmlItems? (rs.map PyObj.dict) = .ok (rs.map xmlItem) := by
  induction rs with
  | nil => rfl
  | cons r rest ih => simp [xmlItems?, ih, Except.map]

/-- On an actual Result Set the tree builder never raises, and it builds
exactly the tree `xmlOfResultSet` describes. -/
theorem store_data_as_xml_tree_toPy (d : ResultSet) :
    store_data_as_xml_tree d.toPy = .ok (xmlOfResultSet d) := by
  cases d with
  | one r => rfl
  | many rs =>
    simp [ResultSet.toPy, store_data_as_xml_tree, xmlItems?_dicts, xmlOfResultSet, Except.map]

/-- Overwriting a file with the same contents twice is the same as
writing it once. -/
theorem fwrite_fwrite (fs : FS) (fn c : Str) :
    fwrite (fwrite fs fn c) fn c = fwrite fs fn c := by
  simp [fwrite, List.eraseP_cons]

/-! ## Claim theorems -/

/-- C1: exporting a sequence of N Records (N ≥ 1) to the markup format
yields a single `data` root with exactly N `item` children, each holding
one leaf per field in field order whose text is the string-converted
value; a single Record puts its leaves directly under the root. -/
theorem xml_export_shape (rs : List Record) (_h : 1 ≤ rs.length) (r : Record) :
    store_data_as_xml_tree (PyObj.list (rs.map PyObj.dict)) =
      .ok (Xml.elem (("data").toList) none (rs.map xmlItem)) ∧
    (rs.map xmlItem).length = rs.length ∧
    (∀ rec : Record, xmlItem rec = Xml.elem (("item").toList) none (rec.map xmlLeaf)) ∧
    (∀ kv : Str × Value, xmlLeaf kv = Xml.elem kv.1 (some kv.2.toChars) []) ∧
    store_data_as_xml_tree (PyObj.dict r) =
      .ok (Xml.elem (("data").toList) none (r.map xmlLeaf)) := by
  refine ⟨?_, by simp, fun _ => rfl, fun _ => rfl, rfl⟩
  simp [store_data_as_xml_tree, xmlItems?_dicts, Except.map]

/-- C1 witness: the shape theorem applied to the one-record sequence
`[{}]` and the single record `{}`. -/
theorem xml_export_shape_witness :
    1 ≤ ([([] : Record)]).length ∧
    (store_data_as_xml_tree (PyObj.list (([([] : Record)]).map PyObj.dict)) =
       .ok (Xml.elem (("data").toList) none (([([] : Record)]).map xmlItem)) ∧
     (([([] : Record)]).map xmlItem).length = ([([] : Record)]).length ∧
     (∀ rec : Record, xmlItem rec = Xml.elem (("item").toList) none (rec.map xmlLeaf)) ∧
     (∀ kv : Str × Value, xmlLeaf kv = Xml.elem kv.1 (some kv.2.toChars) []) ∧
     store_data_as_xml_tree (PyObj.dict ([] : Record)) =
       .ok (Xml.elem (("data").toList) none (([] : Record).map xmlLeaf))) :=
  ⟨by decide, xml_export_shape [[]] (by decide) []⟩

/-- C2: the markup serializer raises its typed `ValueError` only on a
top-level value that is neither a list nor a dict; a list containing a
non-mapping element instead raises `AttributeError` from `item.items()`,
contradicting the claim (and the function's own docstring) that every
non-conforming input gets the typed error. -/
theorem xml_nonmapping_element_attribute_error :
    store_data_as_xml_tree (PyObj.list [PyObj.str (("hello").toList)]) =
      .error PyErr.attributeError ∧
    store_data_as_xml_tree (PyObj.int 5) = .error PyErr.valueError ∧
    store_data_as_xml_tree (PyObj.str (("hello").toList)) = .error PyErr.valueError ∧
    store_data_as_xml_tree (PyObj.dict []) = .ok (Xml.elem (("data").toList) none []) ∧
    PyErr.attributeError ≠ PyErr.valueError :=
  ⟨rfl, rfl, rfl, rfl, by decide⟩

/-- C5: exporting the same Result Set to the same filename twice leaves
byte-identical file contents — both serializers are pure functions of
their input and the second write overwrites the first with the same
text. -/
theorem export_idempotent (d : ResultSet) (fn : Str) (fs : FS) :
    store_data_as_json d fn (store_data_as_json d fn fs) = store_data_as_json d fn fs ∧
    (store_data_as_xml d.toPy fn fs).bind (fun fs2 => store_data_as_xml d.toPy fn fs2) =
      store_data_as_xml d.toPy fn fs := by
  constructor
  · simp [store_data_as_json, fwrite_fwrite]
  · simp [store_data_as_xml, store_data_as_xml_tree_toPy, Except.map, Except.bind, fwrite_fwrite]

/-- C7: a no-rows miss in a `fetchall`-based lookup yields an empty
Result Set without raising, but `get_course_name` subscripts the `None`
from `fetchone()` and raises `TypeError` when the course code matches no
`Course` row — an exception does propagate out of the Query Layer for a
"no rows" condition. -/
theorem course_name_lookup_raises_on_missing :
    get_course_name dbEmpty (("CS50").toList) = .error PyErr.typeError ∧
    view_subjects_by_student dbEmpty (("S1").toList) = [] ∧
    get_student_info dbEmpty (("S1").toList) = none :=
  ⟨rfl, by decide, rfl⟩

/-- C9: an enrollment row is selected by the low-marks listing exactly
when its mark is at most 30; a mark of exactly 30 is included and a mark
of 31 is not. -/
theorem low_marks_threshold_inclusive :
    (∀ (db : DB) (r : SCRow), r ∈ low_marks_query db ↔ r ∈ db.studentCourse ∧ r.mark ≤ 30) ∧
    low_marks_query db30 = [row30] ∧
    low_marks_query db31 = [] := by
  refine ⟨fun db r => ?_, by decide, by decide⟩
  simp [low_marks_query, List.mem_filter]

/-! ## Splitting lemmas for the filename prompt -/

/-- Python `split` always yields at least one piece. -/
theorem pySplit_ne_nil (sep : Char) (s : Str) : pySplit sep s ≠ [] := by
  cases s with
  | nil => simp [pySplit]
  | cons c rest =>
    by_cases h : c = sep
    · simp [pySplit, h]
    · simp only [pySplit, if_neg h]
      cases hr : pySplit sep rest with
      | nil => simp
      | cons p ps => simp

/-- A separator-free string is a single piece. -/
theorem pySplit_no_sep (sep : Char) (t : Str) (h : ¬ sep ∈ t) : pySplit sep t = [t] := by
  induction t with
  | nil => rfl
  | cons c rest ih =>
    have hc : ¬ c = sep := fun hc => h (hc ▸ List.mem_cons_self c rest)
    have hrest : ¬ sep ∈ rest := fun hm => h (List.mem_cons_of_mem c hm)
    simp [pySplit, fun hcs : c = sep => hc hcs, ih hrest]

/-- A string containing the separator splits into at least two pieces. -/
theorem pySplit_length_ge_two (sep : Char) (s : Str) (h : sep ∈ s) :
    2 ≤ (pySplit sep s).length := by
  induction s with
  | nil => cases h
  | cons c rest ih =>
    by_cases hc : c = sep
    · have h1 : 1 ≤ (pySplit sep rest).length :=
        List.length_pos.mpr (pySplit_ne_nil sep rest)
      simp only [pySplit, if_pos hc, List.length_cons]
      omega
    · have hrest : sep ∈ rest := by
        rcases List.mem_cons.mp h with h1 | h2
        · exact absurd h1.symm hc
        · exact h2
      have h2 := ih hrest
      simp only [pySplit, if_neg hc]
      cases hr : pySplit sep rest with
      | nil => exact absurd hr (pySplit_ne_nil sep rest)
      | cons p ps =>
        rw [hr] at h2
        simp only [List.length_cons] at h2 ⊢
        omega

/-- The last piece of Python `split('.')` is exactly the suffix after the
last dot. -/
theorem pySplit_lastD (s t : Str) (h : ¬ '.' ∈ t) :
    lastD [] (pySplit '.' (s ++ '.' :: t)) = t := by
  induction s with
  | nil =>
    simp only [List.nil_append, pySplit, if_pos rfl, pySplit_no_sep '.' t h]
    rfl
  | cons c s' ih =>
    by_cases hc : c = '.'
    · simp only [List.cons_append, pySplit, if_pos hc]
      cases hr : pySplit '.' (s' ++ '.' :: t) with
      | nil => exact absurd hr (pySplit_ne_nil _ _)
      | cons p ps =>
        rw [hr] at ih
        simpa [lastD] using ih
    · simp only [List.cons_append, pySplit, if_neg hc]
      have hmem : '.' ∈ s' ++ '.' :: t := List.mem_append_right s' (List.mem_cons_self '.' t)
      have hlen := pySplit_length_ge_two '.' (s' ++ '.' :: t) hmem
      cases hr : pySplit '.' (s' ++ '.' :: t) with
      | nil => exact absurd hr (pySplit_ne_nil _ _)
      | cons p ps =>
        rw [hr] at ih hlen
        cases ps with
        | nil => simp at hlen
        | cons q qs => simpa [lastD] using ih

/-- The first piece of Python `split('.')` on a nonempty string is empty
exactly when the string starts with a dot. -/
theorem pySplit_headD (c : Char) (rest : Str) :
    (pySplit '.' (c :: rest)).headD [] = [] ↔ c = '.' := by
  by_cases hc : c = '.'
  · simp [pySplit, hc]
  · simp only [pySplit, if_neg hc]
    cases hr : pySplit '.' rest with
    | nil => simpa using hc
    | cons p ps => simpa using hc

/-- C3 counterexample: the filename `".json"` has extension `json` after
its last dot, yet the prompt rejects it as an invalid filename (its base
name before the first dot is empty) and writes nothing — routing is not
strictly by extension. -/
theorem extension_dispatch_dot_json_rejected :
    filename_dispatch ((".json").toList) = FilenameOutcome.invalidName ∧
    offer_to_store_step (ResultSet.one []) ((".json").toList) [] = .reprompt [] ∧
    (".json").toList = [] ++ '.' :: ("json").toList ∧
    lastD [] (pySplit '.' ((".json").toList)) = ("json").toList ∧
    filename_dispatch ((".json").toList) ≠ .write .json := by
  decide

/-- C3 (amended): for a filename whose extension after the last dot is
`ext`, the prompt dispatches case-insensitively on `ext` — `json` to the
JSON serializer, `xml` to the markup serializer, anything else re-prompted
as a user error with no file written — provided the filename also passes
the well-formedness check (nonempty base name before the first dot);
a filename with an empty base name, such as `".json"`, is re-prompted
with no file written even when its extension is `json` or `xml`. -/
theorem extension_dispatch_characterization (base ext fnRaw : Str) (data : ResultSet)
    (fs : FS) (hstrip : pyStrip fnRaw = base ++ '.' :: ext) (hext : ¬ '.' ∈ ext) :
    (lastD [] (pySplit '.' (base ++ '.' :: ext)) = ext) ∧
    (base ≠ [] → base.headD '.' ≠ '.' →
      ((ext.map Char.toLower = ("json").toList →
          offer_to_store_step data fnRaw fs =
            .saved (store_data_as_json data (base ++ '.' :: ext) fs)) ∧
       (ext.map Char.toLower = ("xml").toList →
          offer_to_store_step data fnRaw fs =
            .saved (fwrite fs (base ++ '.' :: ext) (xml_pretty (xmlOfResultSet data)))) ∧
       (ext.map Char.toLower ≠ ("json").toList → ext.map Char.toLower ≠ ("xml").toList →
          filename_dispatch (base ++ '.' :: ext) = .invalidExt ∧
          offer_to_store_step data fnRaw fs = .reprompt fs))) ∧
    (base = [] ∨ base.headD '.' = '.' →
      filename_dispatch (base ++ '.' :: ext) = .invalidName ∧
      offer_to_store_step data fnRaw fs = .reprompt fs) := by
  have hlast : lastD [] (pySplit '.' (base ++ '.' :: ext)) = ext := pySplit_lastD base ext hext
  refine ⟨hlast, ?_, ?_⟩
  · intro hbase hhead
    have hne : base ++ '.' :: ext ≠ [] := by
      cases base <;> simp
    have hmem : '.' ∈ base ++ '.' :: ext :=
      List.mem_append_right base (List.mem_cons_self '.' ext)
    have hheadD : ¬ (pySplit '.' (base ++ '.' :: ext)).headD [] = [] := by
      cases base with
      | nil => exact absurd rfl hbase
      | cons c b' =>
        simp only [List.cons_append]
        rw [pySplit_headD]
        simpa using hhead
    have hcond : ¬ (base ++ '.' :: ext = [] ∨ ¬ '.' ∈ base ++ '.' :: ext ∨
        (pySplit '.' (base ++ '.' :: ext)).headD [] = []) := by
      push_neg
      exact ⟨hne, hmem, hheadD⟩
    refine ⟨?_, ?_, ?_⟩
    · intro hjson
      have hdisp : filename_dispatch (base ++ '.' :: ext) = .write .json := by
        simp only [filename_dispatch, if_neg hcond, hlast, hjson]
        decide
      simp [offer_to_store_step, hstrip, hdisp]
    · intro hxml
      have hdisp : filename_dispatch (base ++ '.' :: ext) = .write .xml := by
        simp only [filename_dispatch, if_neg hcond, hlast, hxml, if_pos]
      simp [offer_to_store_step, hstrip, hdisp]
    · intro hnj hnx
      have hnotxml : ¬ (lastD [] (pySplit '.' (base ++ '.' :: ext))).map Char.toLower =
          ("xml").toList := by rw [hlast]; exact hnx
      have hnotjson : ¬ (lastD [] (pySplit '.' (base ++ '.' :: ext))).map Char.toLower =
          ("json").toList := by rw [hlast]; exact hnj
      have hdisp : filename_dispatch (base ++ '.' :: ext) = .invalidExt := by
        simp only [filename_dispatch, if_neg hcond, if_neg hnotxml, if_neg hnotjson]
      exact ⟨hdisp, by simp [offer_to_store_step, hstrip, hdisp]⟩
  · intro hbad
    have hheadD : (pySplit '.' (base ++ '.' :: ext)).headD [] = [] := by
      cases base with
      | nil => simp [pySplit]
      | cons c b' =>
        rcases hbad with hb | hb
        · cases hb
        · simp only [List.headD_cons] at hb
          simp only [List.cons_append]
          exact (pySplit_headD c (b' ++ '.' :: ext)).mpr hb
    have hdisp : filename_dispatch (base ++ '.' :: ext) = .invalidName := by
      rw [filename_dispatch, if_pos (Or.inr (Or.inr hheadD))]
    exact ⟨hdisp, by simp [offer_to_store_step, hstrip, hdisp]⟩

/-- C3 witness: the characterization applied to the well-formed filename
`"out.json"` and the Result Set `{}`. -/
theorem extension_dispatch_characterization_witness :
    pyStrip (("out.json").toList) = ("out").toList ++ '.' :: ("json").toList ∧
    ¬ '.' ∈ ("json").toList ∧
    ((lastD [] (pySplit '.' (("out").toList ++ '.' :: ("json").toList)) = ("json").toList) ∧
     (("out").toList ≠ [] → (("out").toList).headD '.' ≠ '.' →
       ((("json").toList.map Char.toLower = ("json").toList →
           offer_to_store_step (ResultSet.one []) (("out.json").toList) [] =
             .saved (store_data_as_json (ResultSet.one [])
               (("out").toList ++ '.' :: ("json").toList) [])) ∧
        (("json").toList.map Char.toLower = ("xml").toList →
           offer_to_store_step (ResultSet.one []) (("out.json").toList) [] =
             .saved (fwrite [] (("out").toList ++ '.' :: ("json").toList)
               (xml_pretty (xmlOfResultSet (ResultSet.one []))))) ∧
        (("json").toList.map Char.toLower ≠ ("json").toList →
         ("json").toList.map Char.toLower ≠ ("xml").toList →
           filename_dispatch (("out").toList ++ '.' :: ("json").toList) = .invalidExt ∧
           offer_to_store_step (ResultSet.one []) (("out.json").toList) [] = .reprompt []))) ∧
     (("out").toList = [] ∨ (("out").toList).headD '.' = '.' →
       filename_dispatch (("out").toList ++ '.' :: ("json").toList) = .invalidName ∧
       offer_to_store_step (ResultSet.one []) (("out.json").toList) [] = .reprompt [])) :=
  ⟨by decide, by decide,
    extension_dispatch_characterization ("out").toList ("json").toList ("out.json").toList
      (ResultSet.one []) [] (by decide) (by decide)⟩

/-- Membership in the code list produced by the first query of the
two-step lookup. -/
theorem mem_subjectCodes (db : DB) (sid x : Str) :
    x ∈ subjectCodes db sid ↔
      ∃ r ∈ db.studentCourse, r.student_id = sid ∧ r.course_code = x := by
  simp only [subjectCodes, List.mem_map, List.mem_filter, beq_iff_eq]
  constructor
  · rintro ⟨r, ⟨hr, hsid⟩, hx⟩
    exact ⟨r, hr, hsid, hx⟩
  · rintro ⟨r, hr, hsid, hx⟩
    exact ⟨r, ⟨hr, hsid⟩, hx⟩

/-- A code appears in the thinned store's first query exactly when it
appears in the original's and is not the removed code. -/
theorem mem_subjectCodes_dropEnrollment (db : DB) (sid code x : Str) :
    x ∈ subjectCodes (dropEnrollment db sid code) sid ↔
      (x ∈ subjectCodes db sid ∧ x ≠ code) := by
  rw [mem_subjectCodes, mem_subjectCodes]
  simp only [dropEnrollment, List.mem_filter, decide_eq_true_eq]
  constructor
  · rintro ⟨r, ⟨hr, hdrop⟩, hsid, hx⟩
    exact ⟨⟨r, hr, hsid, hx⟩, fun hxc => hdrop ⟨hsid, hx.trans hxc⟩⟩
  · rintro ⟨⟨r, hr, hsid, hx⟩, hxc⟩
    exact ⟨r, ⟨hr, fun h => hxc (by rw [← hx]; exact h.2)⟩, hsid, hx⟩

/-- C8: the second query of the subjects-for-a-student lookup resolves
only codes with a matching `Course` row; an enrolled code with no
matching name contributes nothing and causes no error — removing such an
enrollment row leaves the Result Set unchanged — and in the concrete
scenario (enrolled in `C1` and `C2`, `Course` naming only `C1`) the
Result Set has exactly one Record. -/
theorem two_step_lookup_drops_unmatched (db : DB) (sid code : Str)
    (hmem : code ∈ subjectCodes db sid)
    (hnone : ∀ c ∈ db.course, c.course_code ≠ code) :
    view_subjects_by_student (dropEnrollment db sid code) sid
      = view_subjects_by_student db sid ∧
    (∀ rec ∈ view_subjects_by_student db sid,
       ∃ c ∈ db.course, c.course_code ∈ subjectCodes db sid ∧
         rec = [(("course_name").toList, Value.str c.course_name)]) ∧
    view_subjects_by_student db8 (("S1").toList) =
      [[(("course_name").toList, Value.str (("Intro").toList))]] := by
  have hcodes_ne : subjectCodes db sid ≠ [] := fun h => by simp [h] at hmem
  have hcourse : (dropEnrollment db sid code).course = db.course := rfl
  refine ⟨?_, ?_, by decide⟩
  · by_cases hthin : subjectCodes (dropEnrollment db sid code) sid = []
    · -- all the student's codes equal the dangling one: both sides empty
      rw [view_subjects_by_student, view_subjects_by_student, if_pos hthin, if_neg hcodes_ne]
      have hfilter : db.course.filter (fun c => (subjectCodes db sid).contains c.course_code)
          = [] := by
        rw [List.filter_eq_nil_iff]
        intro c hc
        simp only [List.contains, List.elem_iff]
        intro hcc
        have : c.course_code ∈ subjectCodes (dropEnrollment db sid code) sid :=
          (mem_subjectCodes_dropEnrollment db sid code c.course_code).mpr
            ⟨hcc, hnone c hc⟩
        rw [hthin] at this
        cases this
      rw [hfilter]
      rfl
    · rw [view_subjects_by_student, view_subjects_by_student, if_neg hthin, if_neg hcodes_ne]
      rw [hcourse]
      have hfe : db.course.filter
            (fun c => (subjectCodes (dropEnrollment db sid code) sid).contains c.course_code)
          = db.course.filter (fun c => (subjectCodes db sid).contains c.course_code) := by
        apply List.filter_congr
        intro c hc
        have hne := hnone c hc
        rw [Bool.eq_iff_iff]
        simp only [List.contains, List.elem_iff]
        rw [mem_subjectCodes_dropEnrollment]
        exact ⟨fun h => h.1, fun h => ⟨h, hne⟩⟩
      rw [hfe]
  · intro rec hrec
    rw [view_subjects_by_student] at hrec
    rw [if_neg hcodes_ne] at hrec
    rcases List.mem_map.mp hrec with ⟨c, hc, hrc⟩
    have hcm := List.mem_of_mem_filter hc
    have hcc : (subjectCodes db sid).contains c.course_code = true :=
      (List.mem_filter.mp hc).2
    refine ⟨c, hcm, ?_, hrc.symm⟩
    simpa [List.contains, List.elem_iff] using hcc

/-- C8 witness: the two-step theorem applied to the concrete scenario
store itself, with `C2` as the dangling code. -/
theorem two_step_lookup_drops_unmatched_witness :
    ("C2").toList ∈ subjectCodes db8 (("S1").toList) ∧
    (∀ c ∈ db8.course, c.course_code ≠ ("C2").toList) ∧
    (view_subjects_by_student (dropEnrollment db8 (("S1").toList) (("C2").toList))
        (("S1").toList)
      = view_subjects_by_student db8 (("S1").toList) ∧
    (∀ rec ∈ view_subjects_by_student db8 (("S1").toList),
       ∃ c ∈ db8.course, c.course_code ∈ subjectCodes db8 (("S1").toList) ∧
         rec = [(("course_name").toList, Value.str c.course_name)]) ∧
    view_subjects_by_student db8 (("S1").toList) =
      [[(("course_name").toList, Value.str (("Intro").toList))]]) :=
  ⟨by decide, by decide,
    two_step_lookup_drops_unmatched db8 (("S1").toList) (("C2").toList)
      (by decide) (by decide)⟩

/-- C10 counterexample: a selected enrollment row whose student record is
missing is not always silently omitted — when its course code also has no
`Course` row, both listings raise `TypeError` out of `get_course_name`
instead of producing a Result Set. -/
theorem dangling_rows_error_counterexample :
    list_students_not_completed dbDangling = .error PyErr.typeError ∧
    list_students_with_low_marks dbDangling = .error PyErr.typeError ∧
    get_student_info dbDangling (("S1").toList) = none ∧
    dbDangling.studentCourse = [⟨("S1").toList, ("CX").toList, 0, 10⟩] :=
  ⟨rfl, rfl, rfl, rfl⟩

/-- The incomplete-courses loop succeeds when every selected row's course
code resolves, and its output is exactly one record per selected row
whose student exists, in row order. -/
theorem buildIncomplete_ok (db : DB) (rows : List SCRow)
    (h : ∀ r ∈ rows, db.course.filter (fun c => c.course_code == r.course_code) ≠ []) :
    buildIncomplete db rows = .ok (rows.filterMap
      (fun r => (get_student_info db r.student_id).map
        (fun info => incompleteRecord r info (courseNameD db r.course_code)))) := by
  induction rows with
  | nil => rfl
  | cons r rest ih =>
    have hr := h r (List.mem_cons_self r rest)
    have hrest := ih (fun x hx => h x (List.mem_cons_of_mem r hx))
    obtain ⟨c, cs, hc⟩ : ∃ c cs,
        db.course.filter (fun x => x.course_code == r.course_code) = c :: cs := by
      cases hcc : db.course.filter (fun x => x.course_code == r.course_code) with
      | nil => exact absurd hcc hr
      | cons c cs => exact ⟨c, cs, rfl⟩
    rw [buildIncomplete, get_course_name, hc]
    simp only [List.head?_cons, hrest, List.filterMap_cons]
    cases hinfo : get_student_info db r.student_id with
    | none => simp [hinfo]
    | some info => simp [hinfo, courseNameD, hc]

/-- The low-marks loop succeeds when every selected row's course code
resolves, and its output is exactly one record per selected row whose
student exists, in row order. -/
theorem buildLow_ok (db : DB) (rows : List SCRow)
    (h : ∀ r ∈ rows, db.course.filter (fun c => c.course_code == r.course_code) ≠ []) :
    buildLow db rows = .ok (rows.filterMap
      (fun r => (get_student_info db r.student_id).map
        (fun info => lowRecord r info (courseNameD db r.course_code)))) := by
  induction rows with
  | nil => rfl
  | cons r rest ih =>
    have hr := h r (List.mem_cons_self r rest)
    have hrest := ih (fun x hx => h x (List.mem_cons_of_mem r hx))
    obtain ⟨c, cs, hc⟩ : ∃ c cs,
        db.course.filter (fun x => x.course_code == r.course_code) = c :: cs := by
      cases hcc : db.course.filter (fun x => x.course_code == r.course_code) with
      | nil => exact absurd hcc hr
      | cons c cs => exact ⟨c, cs, rfl⟩
    rw [buildLow, get_course_name, hc]
    simp only [List.head?_cons, hrest, List.filterMap_cons]
    cases hinfo : get_student_info db r.student_id with
    | none => simp [hinfo]
    | some info => simp [hinfo, courseNameD, hc]

/-- C10 (amended): in both listings, provided every selected enrollment
row's course code has a matching `Course` row, every selected row whose
student is missing is silently omitted and no error is raised: the
Result Set is exactly one record per selected row whose student record
exists, in selection order. (When a selected row's course code is also
missing, the listing instead raises `TypeError` —
see the counterexample.) -/
theorem missing_student_rows_skipped (db : DB)
    (h1 : ∀ r ∈ not_completed_rows db,
       db.course.filter (fun c => c.course_code == r.course_code) ≠ [])
    (h2 : ∀ r ∈ low_marks_query db,
       db.course.filter (fun c => c.course_code == r.course_code) ≠ []) :
    list_students_not_completed db = .ok ((not_completed_rows db).filterMap
      (fun r => (get_student_info db r.student_id).map
        (fun info => incompleteRecord r info (courseNameD db r.course_code)))) ∧
    list_students_with_low_marks db = .ok ((low_marks_query db).filterMap
      (fun r => (get_student_info db r.student_id).map
        (fun info => lowRecord r info (courseNameD db r.course_code)))) :=
  ⟨buildIncomplete_ok db (not_completed_rows db) h1,
   buildLow_ok db (low_marks_query db) h2⟩

/-- C10 witness: the skipped-rows theorem applied to a store where the
first selected row's student is missing and the second's exists: both
listings succeed and report only the second row. -/
theorem missing_student_rows_skipped_witness :
    (∀ r ∈ not_completed_rows dbW,
       dbW.course.filter (fun c => c.course_code == r.course_code) ≠ []) ∧
    (∀ r ∈ low_marks_query dbW,
       dbW.course.filter (fun c => c.course_code == r.course_code) ≠ []) ∧
    (list_students_not_completed dbW = .ok ((not_completed_rows dbW).filterMap
      (fun r => (get_student_info dbW r.student_id).map
        (fun info => incompleteRecord r info (courseNameD dbW r.course_code)))) ∧
    list_students_with_low_marks dbW = .ok ((low_marks_query dbW).filterMap
      (fun r => (get_student_info dbW r.student_id).map
        (fun info => lowRecord r info (courseNameD dbW r.course_code))))) :=
  ⟨by decide, by decide, missing_student_rows_skipped dbW (by decide) (by decide)⟩

/-! ## Round-trip lemmas for the JSON text -/

/-- Whitespace at the head is skipped. -/
theorem skipWs_ws_cons (c : Char) (s : Str) (h : isWsChar c = true) :
    skipWs (c :: s) = skipWs s := by
  simp [skipWs, h]

/-- A non-whitespace head stops the skipping. -/
theorem skipWs_not_ws (c : Char) (s : Str) (h : isWsChar c = false) :
    skipWs (c :: s) = c :: s := by
  simp [skipWs, h]

/-- Indentation is whitespace. -/
theorem skipWs_pad (n : Nat) (s : Str) : skipWs (pad n ++ s) = skipWs s := by
  induction n with
  | zero => rfl
  | succ m ih => simp [pad, skipWs, isWsChar, ih]

/-- Equation: a quote closes the string. -/
theorem parseStrAux_quote (acc rest : Str) :
    parseStrAux acc ('\"' :: rest) = some (acc.reverse, rest) := by
  rw [parseStrAux.eq_def]
  simp

/-- Equation: a backslash followed by a recognized escape letter reads the
escaped character. -/
theorem parseStrAux_escape (acc : Str) (e d : Char) (rest : Str)
    (hd : unescChar e = some d) :
    parseStrAux acc ('\\' :: e :: rest) = parseStrAux (d :: acc) rest := by
  rw [parseStrAux.eq_def]
  simp [hd]

/-- Equation: an ordinary character is accumulated. -/
theorem parseStrAux_other (acc : Str) (c : Char) (rest : Str)
    (h1 : ¬ c = '\"') (h2 : ¬ c = '\\') :
    parseStrAux acc (c :: rest) = parseStrAux (c :: acc) rest := by
  rw [parseStrAux.eq_def]
  simp [h1, h2]

/-- Reading back an escaped string body recovers it exactly. -/
theorem parseStrAux_esc (s : Str) : ∀ (acc rest : Str),
    parseStrAux acc (escStr s ++ '\"' :: rest) = some (acc.reverse ++ s, rest) := by
  induction s with
  | nil => intro acc rest; simp [escStr, parseStrAux_quote]
  | cons c s' ih =>
    intro acc rest
    have hesc : escStr (c :: s') = escChar c ++ escStr s' := rfl
    rw [hesc]
    by_cases h1 : c = '\"'
    · subst h1
      rw [show escChar '\"' = ['\\', '\"'] from rfl]
      simp only [List.cons_append, List.nil_append, List.append_assoc]
      rw [parseStrAux_escape acc '\"' '\"' _ rfl, ih]
      simp
    · by_cases h2 : c = '\\'
      · subst h2
        rw [show escChar '\\' = ['\\', '\\'] from rfl]
        simp only [List.cons_append, List.nil_append, List.append_assoc]
        rw [parseStrAux_escape acc '\\' '\\' _ rfl, ih]
        simp
      · by_cases h3 : c = '\n'
        · subst h3
          rw [show escChar '\n' = ['\\', 'n'] from rfl]
          simp only [List.cons_append, List.nil_append, List.append_assoc]
          rw [parseStrAux_escape acc 'n' '\n' _ rfl, ih]
          simp
        · by_cases h4 : c = '\t'
          · subst h4
            rw [show escChar '\t' = ['\\', 't'] from rfl]
            simp only [List.cons_append, List.nil_append, List.append_assoc]
            rw [parseStrAux_escape acc 't' '\t' _ rfl, ih]
            simp
          · by_cases h5 : c = '\r'
            · subst h5
              rw [show escChar '\r' = ['\\', 'r'] from rfl]
              simp only [List.cons_append, List.nil_append, List.append_assoc]
              rw [parseStrAux_escape acc 'r' '\r' _ rfl, ih]
              simp
            · have he : escChar c = [c] := by simp [escChar, h1, h2, h3, h4, h5]
              rw [he]
              simp only [List.cons_append, List.nil_append, List.append_assoc]
              rw [parseStrAux_other acc c _ h1 h2, ih]
              simp

/-- Facts about a digit character. -/
theorem digitChar_props (d : Nat) (h : d < 10) :
    (digitChar d).isDigit = true ∧ (digitChar d).toNat = 48 + d ∧
    isWsChar (digitChar d) = false ∧ digitChar d ≠ '\"' ∧ digitChar d ≠ '-' := by
  interval_cases d <;> refine ⟨by decide, by decide, by decide, by decide, by decide⟩

/-- The accumulator of the decimal printer is an append. -/
theorem natDecAux_append (fuel : Nat) : ∀ (n : Nat) (acc : Str),
    natDecAux fuel n acc = natDecAux fuel n [] ++ acc := by
  induction fuel with
  | zero => intro n acc; rfl
  | succ f ih =>
    intro n acc
    by_cases hn : n < 10
    · simp [natDecAux, hn]
    · simp only [natDecAux, if_neg hn]
      rw [ih (n / 10) (digitChar (n % 10) :: acc), ih (n / 10) [digitChar (n % 10)]]
      simp

/-- With enough fuel the printed number starts with a digit character. -/
theorem natDecAux_head (fuel : Nat) : ∀ n : Nat, n < fuel →
    ∃ m ds, m < 10 ∧ natDecAux fuel n [] = digitChar m :: ds := by
  induction fuel with
  | zero => intro n h; omega
  | succ f ih =>
    intro n h
    by_cases hn : n < 10
    · exact ⟨n, [], hn, by simp [natDecAux, hn]⟩
    · have hlt : n / 10 < f := by omega
      obtain ⟨m, ds, hm, hds⟩ := ih (n / 10) hlt
      refine ⟨m, ds ++ [digitChar (n % 10)], hm, ?_⟩
      simp only [natDecAux, if_neg hn]
      rw [natDecAux_append f (n / 10) [digitChar (n % 10)], hds]
      simp

/-- The digit reader stops at a non-digit head. -/
theorem parseDigitsAux_stop (a : Nat) (rest : Str) (h : noDigitHead rest) :
    parseDigitsAux a rest = (a, rest) := by
  cases rest with
  | nil => rfl
  | cons c cs =>
    have hc : c.isDigit = false := h
    simp [parseDigitsAux, hc]

/-- Reading the printed digits of `n` after an accumulator `a` shifts `a`
by the number of digits and adds `n`. -/
theorem parseDigitsAux_natDecAux (fuel : Nat) : ∀ (n a : Nat) (rest : Str), n < fuel →
    parseDigitsAux a (natDecAux fuel n [] ++ rest) =
      parseDigitsAux (a * 10 ^ (natDecAux fuel n []).length + n) rest := by
  induction fuel with
  | zero => intro n a rest h; omega
  | succ f ih =>
    intro n a rest h
    by_cases hn : n < 10
    · have h1 := (digitChar_props n hn).1
      have h2 := (digitChar_props n hn).2.1
      simp [natDecAux, hn, parseDigitsAux, h1, h2]
    · have hlt : n / 10 < f := by omega
      have hmod : n % 10 < 10 := Nat.mod_lt n (by norm_num)
      have h1 := (digitChar_props (n % 10) hmod).1
      have h2 := (digitChar_props (n % 10) hmod).2.1
      simp only [natDecAux, if_neg hn]
      rw [natDecAux_append f (n / 10) [digitChar (n % 10)]]
      rw [List.append_assoc]
      rw [ih (n / 10) a ([digitChar (n % 10)] ++ rest) hlt]
      simp only [List.cons_append, List.nil_append, parseDigitsAux, h1, h2, if_true]
      have hsub : 48 + n % 10 - 48 = n % 10 := by omega
      rw [hsub]
      congr 1
      have hdm : n / 10 * 10 + n % 10 = n := by
        have := Nat.div_add_mod n 10
        omega
      rw [List.length_append, List.length_cons, List.length_nil, pow_succ]
      calc (a * 10 ^ (natDecAux f (n / 10) []).length + n / 10) * 10 + n % 10
          = a * (10 ^ (natDecAux f (n / 10) []).length * 10) +
              (n / 10 * 10 + n % 10) := by ring
        _ = a * (10 ^ (natDecAux f (n / 10) []).length * 10) + n := by rw [hdm]

/-- Reading back a printed natural number recovers it. -/
theorem parseDigitsAux_natDec (n : Nat) (rest : Str) (h : noDigitHead rest) :
    parseDigitsAux 0 (natDec n ++ rest) = (n, rest) := by
  rw [natDec, parseDigitsAux_natDecAux (n + 1) n 0 rest (Nat.lt_succ_self n)]
  simp [parseDigitsAux_stop _ _ h]

/-- Reading back a printed integer recovers it. -/
theorem parseIntVal_intDec (n : Int) (rest : Str) (h : noDigitHead rest) :
    parseIntVal (intDec n ++ rest) = some (n, rest) := by
  cases n with
  | ofNat m =>
    obtain ⟨d, ds, hd, hds⟩ := natDecAux_head (m + 1) m (Nat.lt_succ_self m)
    have hprops := digitChar_props d hd
    have hnd : natDec m = digitChar d :: ds := hds
    have hsplit : intDec (Int.ofNat m) ++ rest = digitChar d :: (ds ++ rest) := by
      simp [intDec, hnd]
    rw [hsplit, parseIntVal.eq_def]
    simp only [if_neg hprops.2.2.2.2, hprops.1, if_true]
    have hback : digitChar d :: (ds ++ rest) = natDec m ++ rest := by simp [hnd]
    rw [hback, parseDigitsAux_natDec m rest h]
    rfl
  | negSucc m =>
    obtain ⟨d, ds, hd, hds⟩ := natDecAux_head (m + 2) (m + 1) (Nat.lt_succ_self (m + 1))
    have hprops := digitChar_props d hd
    have hnd : natDec (m + 1) = digitChar d :: ds := hds
    have hsplit : intDec (Int.negSucc m) ++ rest = '-' :: (digitChar d :: (ds ++ rest)) := by
      simp [intDec, hnd]
    rw [hsplit, parseIntVal.eq_def]
    simp only [if_pos rfl, hprops.1, if_true]
    have hback : digitChar d :: (ds ++ rest) = natDec (m + 1) ++ rest := by simp [hnd]
    rw [hback, parseDigitsAux_natDec (m + 1) rest h]
    simp [Int.negSucc_eq]

/-- Reading back a serialized scalar value after the key separator's
space recovers it, when the following text does not begin with a digit. -/
theorem parseValue_val (v : Value) (tail : Str) (h : noDigitHead tail) :
    parseValue (' ' :: (valChars v ++ tail)) = some (v, tail) := by
  cases v with
  | str s =>
    have hsk : skipWs (' ' :: (valChars (Value.str s) ++ tail)) =
        '\"' :: (escStr s ++ '\"' :: tail) := by
      rw [skipWs_ws_cons ' ' _ (by decide)]
      rw [show valChars (Value.str s) ++ tail = '\"' :: (escStr s ++ '\"' :: tail) from by
        simp [valChars]]
      exact skipWs_not_ws '\"' _ (by decide)
    rw [parseValue, hsk]
    simp [parseStrAux_esc s [] tail]
  | int n =>
    cases n with
    | ofNat m =>
      obtain ⟨d, ds, hd, hds⟩ := natDecAux_head (m + 1) m (Nat.lt_succ_self m)
      have hprops := digitChar_props d hd
      have hnd : natDec m = digitChar d :: ds := hds
      have hshape : valChars (Value.int (Int.ofNat m)) ++ tail =
          digitChar d :: (ds ++ tail) := by
        simp [valChars, intDec, hnd]
      have hsk : skipWs (' ' :: (valChars (Value.int (Int.ofNat m)) ++ tail)) =
          digitChar d :: (ds ++ tail) := by
        rw [skipWs_ws_cons ' ' _ (by decide), hshape]
        exact skipWs_not_ws _ _ hprops.2.2.1
      rw [parseValue, hsk]
      simp only [if_neg hprops.2.2.2.1]
      rw [show digitChar d :: (ds ++ tail) = intDec (Int.ofNat m) ++ tail from by
        simp [intDec, hnd]]
      rw [parseIntVal_intDec (Int.ofNat m) tail h]
      rfl
    | negSucc m =>
      obtain ⟨d, ds, hd, hds⟩ := natDecAux_head (m + 2) (m + 1) (Nat.lt_succ_self (m + 1))
      have hnd : natDec (m + 1) = digitChar d :: ds := hds
      have hshape : valChars (Value.int (Int.negSucc m)) ++ tail =
          '-' :: (natDec (m + 1) ++ tail) := by
        simp [valChars, intDec]
      have hsk : skipWs (' ' :: (valChars (Value.int (Int.negSucc m)) ++ tail)) =
          '-' :: (natDec (m + 1) ++ tail) := by
        rw [skipWs_ws_cons ' ' _ (by decide), hshape]
        exact skipWs_not_ws '-' _ (by decide)
      rw [parseValue, hsk]
      simp only [if_neg (by decide : ¬ ('-' : Char) = '\"')]
      rw [show ('-' : Char) :: (natDec (m + 1) ++ tail) = intDec (Int.negSucc m) ++ tail from by
        simp [intDec]]
      rw [parseIntVal_intDec (Int.negSucc m) tail h]
      rfl

/-- The member reader at positive fuel, with its outer fuel match
reduced. -/
theorem parseFieldsAux_succ_eq (f : Nat) (cs : Str) :
    parseFieldsAux (f + 1) cs =
      match skipWs cs with
      | [] => none
      | c :: r0 =>
        if c = '\"' then
          match parseStrAux [] r0 with
          | none => none
          | some (k, r1) =>
            match skipWs r1 with
            | [] => none
            | c1 :: r2 =>
              if c1 = ':' then
                match parseValue r2 with
                | none => none
                | some (v, r3) =>
                  match skipWs r3 with
                  | [] => none
                  | c3 :: r4 =>
                    if c3 = ',' then
                      match parseFieldsAux f r4 with
                      | some (flds, r5) => some ((k, v) :: flds, r5)
                      | none => none
                    else if c3 = '\x7d' then some ([(k, v)], r4) else none
              else none
        else none := rfl

/-- A whitespace head before an object member is skipped. -/
theorem parseFieldsAux_ws (fuel : Nat) (c : Char) (x : Str) (h : isWsChar c = true) :
    parseFieldsAux (fuel + 1) (c :: x) = parseFieldsAux (fuel + 1) x := by
  rw [parseFieldsAux_succ_eq, parseFieldsAux_succ_eq, skipWs_ws_cons c x h]

/-- Reading the member lines of a dumped record, followed by the closing
newline and brace, recovers the record's fields in order. -/
theorem parseFieldsAux_fields (ind : Nat) (r : Record) : ∀ (fuel : Nat) (tail0 : Str),
    r ≠ [] → r.length ≤ fuel →
    parseFieldsAux fuel (fieldsChars ind r ++ '\n' :: '\x7d' :: tail0) = some (r, tail0) := by
  induction r with
  | nil => intro fuel tail0 hne _; exact absurd rfl hne
  | cons kv rest ih =>
    intro fuel tail0 _ hlen
    cases fuel with
    | zero => simp at hlen
    | succ f =>
      cases rest with
      | nil =>
        have hin : fieldsChars ind [kv] ++ '\n' :: '\x7d' :: tail0 =
            pad ind ++ ('\"' :: (escStr kv.1 ++
              '\"' :: ':' :: ' ' :: (valChars kv.2 ++ ('\n' :: '\x7d' :: tail0)))) := by
          simp [fieldsChars, fieldChars]
        rw [hin, parseFieldsAux_succ_eq]
        rw [skipWs_pad, skipWs_not_ws '\"' _ (by decide)]
        simp only [if_pos rfl]
        rw [parseStrAux_esc kv.1 [] _]
        simp only [List.reverse_nil, List.nil_append]
        rw [skipWs_not_ws ':' _ (by decide)]
        simp only [if_pos rfl]
        rw [parseValue_val kv.2 _ (by exact rfl)]
        simp [skipWs, isWsChar]
      | cons kv2 rest2 =>
        have hin : fieldsChars ind (kv :: kv2 :: rest2) ++ '\n' :: '\x7d' :: tail0 =
            pad ind ++ ('\"' :: (escStr kv.1 ++
              '\"' :: ':' :: ' ' :: (valChars kv.2 ++ (',' :: '\n' ::
                (fieldsChars ind (kv2 :: rest2) ++ '\n' :: '\x7d' :: tail0))))) := by
          simp [fieldsChars, fieldChars]
        rw [hin, parseFieldsAux_succ_eq]
        rw [skipWs_pad, skipWs_not_ws '\"' _ (by decide)]
        simp only [if_pos rfl]
        rw [parseStrAux_esc kv.1 [] _]
        simp only [List.reverse_nil, List.nil_append]
        rw [skipWs_not_ws ':' _ (by decide)]
        simp only [if_pos rfl]
        rw [parseValue_val kv.2 _ (by exact rfl)]
        obtain ⟨f', rfl⟩ : ∃ f', f = f' + 1 := ⟨f - 1, by simp at hlen; omega⟩
        have hnext : parseFieldsAux (f' + 1)
            ('\n' :: (fieldsChars ind (kv2 :: rest2) ++ '\n' :: '\x7d' :: tail0))
            = some (kv2 :: rest2, tail0) := by
          rw [parseFieldsAux_ws _ _ _ (by decide)]
          exact ih (f' + 1) tail0 (by simp) (by simp at hlen ⊢; omega)
        simp [hnext, skipWs, isWsChar]

/-- A record has no more fields than its member text has characters. -/
theorem le_length_fieldsChars (ind : Nat) (r : Record) :
    r.length ≤ (fieldsChars ind r).length := by
  induction r with
  | nil => simp [fieldsChars]
  | cons kv rest ih =>
    cases rest with
    | nil =>
      have h1 : fieldsChars ind [kv] = fieldChars ind kv := rfl
      rw [h1]
      simp only [fieldChars, List.length_append, List.length_cons, List.length_nil]
      omega
    | cons kv2 rest2 =>
      have h1 : fieldsChars ind (kv :: kv2 :: rest2) =
          fieldChars ind kv ++ ',' :: '\n' :: fieldsChars ind (kv2 :: rest2) := rfl
      rw [h1]
      simp only [List.length_append, List.length_cons, List.length_nil] at ih ⊢
      omega

/-- Parsing the dumped text of a Record recovers exactly the Record:
same field names, same order, and identically-typed values. -/
theorem json_loads_dumpRecord (r : Record) : json_loads (dumpRecord 0 r) = some r := by
  cases r with
  | nil => rfl
  | cons kv rest =>
    have hshape : dumpRecord 0 (kv :: rest) =
        '\x7b' :: '\n' :: (fieldsChars 4 (kv :: rest) ++ '\n' :: '\x7d' :: []) := by
      simp [dumpRecord, pad]
    obtain ⟨X, hX⟩ : ∃ X, fieldsChars 4 (kv :: rest) ++ '\n' :: '\x7d' :: [] =
        pad 4 ++ '\"' :: X := by
      cases rest with
      | nil =>
        exact ⟨escStr kv.1 ++ '\"' :: ':' :: ' ' :: (valChars kv.2 ++ '\n' :: '\x7d' :: []),
          by simp [fieldsChars, fieldChars]⟩
      | cons kv2 rest2 =>
        exact ⟨escStr kv.1 ++ '\"' :: ':' :: ' ' :: (valChars kv.2 ++ ',' :: '\n' ::
            (fieldsChars 4 (kv2 :: rest2) ++ '\n' :: '\x7d' :: [])),
          by simp [fieldsChars, fieldChars]⟩
    have hskipB : skipWs ('\n' :: (fieldsChars 4 (kv :: rest) ++ '\n' :: '\x7d' :: [])) =
        '\"' :: X := by
      rw [skipWs_ws_cons '\n' _ (by decide), hX, skipWs_pad]
      exact skipWs_not_ws '\"' _ (by decide)
    have hfuel : (kv :: rest).length ≤
        ('\n' :: (fieldsChars 4 (kv :: rest) ++ '\n' :: '\x7d' :: [])).length + 1 := by
      have := le_length_fieldsChars 4 (kv :: rest)
      simp only [List.length_cons, List.length_append] at this ⊢
      omega
    have hfields := parseFieldsAux_fields 4 (kv :: rest)
      (('\n' :: (fieldsChars 4 (kv :: rest) ++ '\n' :: '\x7d' :: [])).length + 1) []
      (by simp) hfuel
    rw [hshape]
    unfold json_loads
    rw [skipWs_not_ws '\x7b' _ (by decide)]
    simp only [if_pos rfl, hskipB]
    have hquote_ne : ¬ ('\"' : Char) = '\x7d' := by decide
    simp only [if_neg hquote_ne]
    rw [show parseFieldsAux
        (('\n' :: (fieldsChars 4 (kv :: rest) ++ '\n' :: '\x7d' :: [])).length + 1)
        ('\n' :: (fieldsChars 4 (kv :: rest) ++ '\n' :: '\x7d' :: []))
      = some (kv :: rest, []) from by
        have hlen2 : ('\n' :: (fieldsChars 4 (kv :: rest) ++ '\n' :: '\x7d' :: [])).length + 1
            = ((fieldsChars 4 (kv :: rest) ++ '\n' :: '\x7d' :: []).length + 1) + 1 := by
          simp
        rw [hlen2, parseFieldsAux_ws _ _ _ (by decide)]
        rw [← hlen2]
        exact hfields]
    simp [skipWs]

/-- Reading a freshly written file back gives the written contents. -/
theorem fsRead_fwrite (fs : FS) (fn c : Str) : fsRead (fwrite fs fn c) fn = some c := by
  simp [fsRead, fwrite, List.find?_cons]

/-- C4 counterexample: the Record with the numeric field `mark = 30`
round-trips through the text-tree (JSON) format to the integer 30 — not
to the string "30" the claim predicts for numeric fields. -/
theorem json_roundtrip_int_not_string :
    json_loads (json_serialize (ResultSet.one rMark)) = some rMark ∧
    json_loads (json_serialize (ResultSet.one rMark)) ≠
      some [(("mark").toList, Value.str (("30").toList))] ∧
    rMark = [(("mark").toList, Value.int 30)] := by
  decide

/-- C4 (amended): for every valid Record (distinct printable-ASCII field
names, the faithfulness domain of the serializer model), serializing to
the text-tree (JSON) format and parsing the text back yields a mapping
with the same field names in the same order and equal, identically-typed
values: numeric fields come back as numbers and string fields as
strings; nothing is retyped across the round trip. -/
theorem json_roundtrip_preserves_types (r : Record) (_hv : validRecord r) :
    json_loads (json_serialize (ResultSet.one r)) = some r :=
  json_loads_dumpRecord r

/-- C4 witness: the round-trip theorem applied to the one-field Record
`\x7b"mark": 30\x7d`. -/
theorem json_roundtrip_preserves_types_witness :
    validRecord rMark ∧
    json_loads (json_serialize (ResultSet.one rMark)) = some rMark :=
  ⟨by decide, json_roundtrip_preserves_types rMark (by decide)⟩

/-- C6: exporting a Record to a `.json` file writes the
`json.dumps(..., indent=4)` text, and parsing the written content yields
a mapping equal to the input Record with field order preserved; for the
address Record of the scenario the written text is exactly the 4-space
indented document below, which is pure ASCII (so its UTF-8 encoding is
its ASCII bytes). -/
theorem json_record_export_parses_back (r : Record) (fn : Str) (fs : FS)
    (_hv : validRecord r) :
    fsRead (store_data_as_json (ResultSet.one r) fn fs) fn =
      some (json_serialize (ResultSet.one r)) ∧
    json_loads (json_serialize (ResultSet.one r)) = some r ∧
    json_serialize (ResultSet.one rAddr) =
      ("\x7b\n    \"street\": \"12 Oak Ave\",\n    \"city\": \"Springfield\"\n\x7d").toList ∧
    json_loads
        (("\x7b\n    \"street\": \"12 Oak Ave\",\n    \"city\": \"Springfield\"\n\x7d").toList)
      = some rAddr ∧
    (json_serialize (ResultSet.one rAddr)).all (fun c => c.toNat < 128) = true := by
  refine ⟨fsRead_fwrite fs fn _, json_loads_dumpRecord r, by decide, by decide, by decide⟩

/-- C6 witness: the export theorem applied to the address Record itself,
an empty file system and the filename `out.json`. -/
theorem json_record_export_parses_back_witness :
    validRecord rAddr ∧
    (fsRead (store_data_as_json (ResultSet.one rAddr) (("out.json").toList) [])
        (("out.json").toList) =
      some (json_serialize (ResultSet.one rAddr)) ∧
    json_loads (json_serialize (ResultSet.one rAddr)) = some rAddr ∧
    json_serialize (ResultSet.one rAddr) =
      ("\x7b\n    \"street\": \"12 Oak Ave\",\n    \"city\": \"Springfield\"\n\x7d").toList ∧
    json_loads
        (("\x7b\n    \"street\": \"12 Oak Ave\",\n    \"city\": \"Springfield\"\n\x7d").toList)
      = some rAddr ∧
    (json_serialize (ResultSet.one rAddr)).all (fun c => c.toNat < 128) = true) :=
  ⟨by decide, json_record_export_parses_back rAddr (("out.json").toList) [] (by decide)⟩

end SQT
